import Mathlib

/-!
Verification development for the ML-Drought-Prediction-Tutorial notebook
(src/RF_tutorial.ipynb).

The notebook is sequential glue around library calls: it loads a CSV, drops
rows with missing values, splits rows into train/test subsets with a seeded
shuffle, fits a RandomForestClassifier, computes classification metrics,
ranks feature importances, and repeats the split/fit/score pipeline over 30
seeds, averaging the metrics.

We embed the notebook's own logic directly.  External library calls
(scikit-learn and numpy) are modelled from their documented behaviour,
which the spec restates:
* train_test_split shuffles the row indices with a pseudo-random
  permutation that is a deterministic function of random_state, takes
  ceil(test_size * n) indices for the test subset and the remaining
  indices for the training subset;
* RandomForestClassifier internals are out of scope (spec section 4.3);
  the trained model is modelled as an opaque artifact recording its
  hyperparameters (tree count, seed) and training data, predicting the
  majority training label and the empirical class-1 frequency;
* the metric functions are the standard closed-form ratios over the
  confusion counts, with value 0 when a denominator vanishes;
* np.argsort is modelled as a stable ascending sort of indices;
* np.mean is the arithmetic average.
Numeric values are rationals (ℚ): the comparison/ratio logic of the
notebook is arithmetic on real numbers, and no claim here depends on
binary floating-point rounding.
-/

/-! ### Seeded pseudo-random permutation (model of numpy shuffling) -/

/-- Modelled from the spec: the pseudo-random number stream behind the
seeded shuffle of train_test_split ("deterministic given the seed",
spec section 4.2).  A linear congruential step; the exact stream is
irrelevant to every claim, only that it is a pure function of the seed. -/
def lcgNext (s : Nat) : Nat := (1103515245 * s + 12345) % 2147483648

/-- Remove the element at position i (take the prefix before i and the
suffix after i). -/
def removeAt (l : List Nat) (i : Nat) : List Nat := l.take i ++ l.drop (i + 1)

/-- Modelled from the spec: seeded shuffle of a list of row indices
(selection shuffle driven by the lcg stream), a pure function of the seed.
The fuel argument is the list length. -/
def shuffleAux : Nat → Nat → List Nat → List Nat
  | 0, _, _ => []
  | fuel + 1, s, l =>
    if l.length = 0 then []
    else
      let i := s % l.length
      l.getD i 0 :: shuffleAux fuel (lcgNext s) (removeAt l i)

/-- Modelled from the spec: the seeded permutation of 0..n-1 used by
train_test_split with random_state = seed. -/
def seededPerm (seed n : Nat) : List Nat := shuffleAux n seed (List.range n)

/-- Number of held-out test rows: ceil(testSize * n) where the held-out
fraction testSize is the rational num/den (scikit-learn holds out
ceil(test_size * n_samples) rows). -/
def nTestRows (num den n : Nat) : Nat := (num * n + (den - 1)) / den

/-- Structure of one split: the two index lists. -/
structure SplitIdx where
  trainIdx : List Nat
  testIdx : List Nat
deriving Repr, DecidableEq

/-- train_test_split on a dataset of n rows, held-out fraction num/den,
random_state = seed: shuffle the indices 0..n-1 with the seeded
permutation, hold out the first ceil(num/den * n) for the test subset and
train on the rest (model of sklearn.model_selection.train_test_split). -/
def train_test_split (n num den seed : Nat) : SplitIdx :=
  let perm := seededPerm seed n
  let nTest := nTestRows num den n
  { trainIdx := perm.drop nTest, testIdx := perm.take nTest }

/-! Basic facts about the shuffle: it permutes its input. -/

theorem removeAt_perm (l : List Nat) (i : Nat) (h : i < l.length) :
    (l.getD i 0 :: removeAt l i).Perm l := by
  have hd : l.drop i = l[i] :: l.drop (i + 1) := List.drop_eq_getElem_cons h
  have hsplit : l.take i ++ l.drop i = l := List.take_append_drop i l
  have : l = l.take i ++ l[i] :: l.drop (i + 1) := by rw [← hd, hsplit]
  have hg : l.getD i 0 = l[i] := List.getD_eq_getElem l 0 h
  have h1 : (l.getD i 0 :: removeAt l i) = l[i] :: (l.take i ++ l.drop (i + 1)) := by
    rw [hg]; rfl
  rw [h1]
  conv_rhs => rw [this]
  exact (List.perm_middle).symm

theorem length_removeAt (l : List Nat) (i : Nat) (h : i < l.length) :
    (removeAt l i).length + 1 = l.length := by
  have : (removeAt l i).length = (l.take i).length + (l.drop (i + 1)).length := by
    simp [removeAt]
  rw [this, List.length_take, List.length_drop]
  omega

theorem shuffleAux_perm : ∀ (fuel s : Nat) (l : List Nat),
    l.length ≤ fuel → (shuffleAux fuel s l).Perm l := by
  intro fuel
  induction fuel with
  | zero =>
    intro s l h
    have : l = [] := List.length_eq_zero.mp (Nat.le_zero.mp h)
    subst this
    simp [shuffleAux]
  | succ fuel ih =>
    intro s l h
    by_cases hl : l.length = 0
    · have : l = [] := List.length_eq_zero.mp hl
      subst this
      simp [shuffleAux]
    · have hpos : 0 < l.length := Nat.pos_of_ne_zero hl
      have hi : s % l.length < l.length := Nat.mod_lt _ hpos
      have hlen : (removeAt l (s % l.length)).length + 1 = l.length :=
        length_removeAt l _ hi
      have hrec : (shuffleAux fuel (lcgNext s) (removeAt l (s % l.length))).Perm
          (removeAt l (s % l.length)) := ih _ _ (by omega)
      have : shuffleAux (fuel + 1) s l =
          l.getD (s % l.length) 0 :: shuffleAux fuel (lcgNext s) (removeAt l (s % l.length)) := by
        simp [shuffleAux, hl]
      rw [this]
      exact (hrec.cons _).trans (removeAt_perm l _ hi)

theorem seededPerm_perm (seed n : Nat) : (seededPerm seed n).Perm (List.range n) :=
  shuffleAux_perm n seed (List.range n) (by simp)

theorem seededPerm_nodup (seed n : Nat) : (seededPerm seed n).Nodup :=
  (seededPerm_perm seed n).nodup_iff.mpr (List.nodup_range n)

theorem seededPerm_length (seed n : Nat) : (seededPerm seed n).length = n := by
  have := (seededPerm_perm seed n).length_eq
  simpa using this

/-! ### Claims C1 and C4: partition properties and determinism of the Splitter -/

theorem nTestRows_le (num den n : Nat) (hden : 0 < den) (hfrac : num ≤ den) :
    nTestRows num den n ≤ n := by
  rw [nTestRows, Nat.div_le_iff_le_mul_add_pred hden]
  have := Nat.mul_le_mul_right n hfrac
  omega

theorem mul_nTestRows_ge (num den n : Nat) (hden : 0 < den) :
    num * n ≤ den * nTestRows num den n := by
  have h1 := Nat.div_add_mod (num * n + (den - 1)) den
  have h2 := Nat.mod_lt (num * n + (den - 1)) hden
  rw [nTestRows]
  omega

theorem nTestRows_eq_ceil (num den n : Nat) (hden : 0 < den) :
    nTestRows num den n = ⌈((num : ℚ) / den) * n⌉₊ := by
  have hdq : (0 : ℚ) < den := by exact_mod_cast hden
  have hq : ((num : ℚ) / den) * n = ((num * n : Nat) : ℚ) / den := by
    push_cast; ring
  rw [hq]
  apply Nat.le_antisymm
  · rw [nTestRows, Nat.div_le_iff_le_mul_add_pred hden]
    have hle : ((num * n : Nat) : ℚ) ≤ (den : ℚ) * (⌈((num * n : Nat) : ℚ) / den⌉₊ : ℚ) := by
      have := Nat.le_ceil (((num * n : Nat) : ℚ) / den)
      calc ((num * n : Nat) : ℚ) = ((num * n : Nat) : ℚ) / den * den := by
            field_simp
        _ ≤ (⌈((num * n : Nat) : ℚ) / den⌉₊ : ℚ) * den := by
            exact mul_le_mul_of_nonneg_right this (le_of_lt hdq)
        _ = (den : ℚ) * (⌈((num * n : Nat) : ℚ) / den⌉₊ : ℚ) := by ring
    have : num * n ≤ den * ⌈((num * n : Nat) : ℚ) / den⌉₊ := by exact_mod_cast hle
    omega
  · rw [Nat.ceil_le]
    rw [div_le_iff₀ hdq]
    have := mul_nTestRows_ge num den n hden
    have : ((num * n : Nat) : ℚ) ≤ ((den * nTestRows num den n : Nat) : ℚ) := by
      exact_mod_cast this
    push_cast at this ⊢
    linarith

/-- C1: every split produced by train_test_split partitions the row
indices: the training and test index lists are disjoint, their lengths sum
to the dataset size, and the test size is exactly the ceiling of the
held-out fraction num/den times the dataset size. -/
theorem splitter_partition (n num den seed : Nat) (hden : 0 < den) (hfrac : num ≤ den) :
    (train_test_split n num den seed).trainIdx.Disjoint
      (train_test_split n num den seed).testIdx ∧
    (train_test_split n num den seed).trainIdx.length
      + (train_test_split n num den seed).testIdx.length = n ∧
    (train_test_split n num den seed).testIdx.length = ⌈((num : ℚ) / den) * n⌉₊ := by
  have hlen := seededPerm_length seed n
  have hnodup := seededPerm_nodup seed n
  have hle : nTestRows num den n ≤ n := nTestRows_le num den n hden hfrac
  have htake : ((seededPerm seed n).take (nTestRows num den n)).length = nTestRows num den n := by
    rw [List.length_take, hlen]
    omega
  have hdrop : ((seededPerm seed n).drop (nTestRows num den n)).length = n - nTestRows num den n := by
    rw [List.length_drop, hlen]
  refine ⟨?_, ?_, ?_⟩
  · exact (List.disjoint_take_drop hnodup (Nat.le_refl _)).symm
  · show ((seededPerm seed n).drop (nTestRows num den n)).length
        + ((seededPerm seed n).take (nTestRows num den n)).length = n
    rw [htake, hdrop]
    omega
  · show ((seededPerm seed n).take (nTestRows num den n)).length = _
    rw [htake, nTestRows_eq_ceil num den n hden]

theorem splitter_partition_witness :
    0 < 10 ∧ 3 ≤ 10 ∧
    ((train_test_split 20 3 10 42).trainIdx.Disjoint (train_test_split 20 3 10 42).testIdx ∧
     (train_test_split 20 3 10 42).trainIdx.length
       + (train_test_split 20 3 10 42).testIdx.length = 20 ∧
     (train_test_split 20 3 10 42).testIdx.length = ⌈((3 : ℚ) / 10) * 20⌉₊) :=
  ⟨by decide, by decide, splitter_partition 20 3 10 42 (by decide) (by decide)⟩

/-- C4: the Splitter is deterministic: two calls of train_test_split with
the same dataset size, held-out fraction and random_state yield identical
training/test partitions (the embedded splitter is a pure function of its
arguments, reflecting the documented seeded behaviour). -/
theorem splitter_deterministic (n n' num num' den den' seed seed' : Nat)
    (hn : n = n') (hnum : num = num') (hden : den = den') (hseed : seed = seed') :
    train_test_split n num den seed = train_test_split n' num' den' seed' := by
  subst hn hnum hden hseed
  rfl

theorem splitter_deterministic_witness :
    train_test_split 20 3 10 7 = train_test_split 20 3 10 7 :=
  splitter_deterministic 20 20 3 3 10 10 7 7 rfl rfl rfl rfl

/-! ### Evaluator: metric functions over predicted/true label lists

Model of the sklearn.metrics calls of the notebook: the standard
closed-form ratios over the confusion counts (spec section 4.4), with
value 0 when a denominator vanishes (rational division by zero is 0). -/

/-- Number of (true, predicted) label pairs satisfying p. -/
def confCount (yTrue yPred : List Nat) (p : Nat → Nat → Bool) : Nat :=
  (yTrue.zip yPred).countP (fun ab => p ab.1 ab.2)

/-- True positives: label 1 predicted as 1. -/
def truePos (yTrue yPred : List Nat) : Nat :=
  confCount yTrue yPred (fun a b => a == 1 && b == 1)

/-- False positives: label other than 1 predicted as 1. -/
def falsePos (yTrue yPred : List Nat) : Nat :=
  confCount yTrue yPred (fun a b => !(a == 1) && b == 1)

/-- False negatives: label 1 predicted as something else. -/
def falseNeg (yTrue yPred : List Nat) : Nat :=
  confCount yTrue yPred (fun a b => a == 1 && !(b == 1))

/-- accuracy_score: fraction of correct predictions. -/
def accuracy_score (yTrue yPred : List Nat) : ℚ :=
  (confCount yTrue yPred (fun a b => a == b) : ℚ) / (yTrue.length : ℚ)

/-- precision_score: TP / (TP + FP). -/
def precision_score (yTrue yPred : List Nat) : ℚ :=
  (truePos yTrue yPred : ℚ) / ((truePos yTrue yPred + falsePos yTrue yPred : Nat) : ℚ)

/-- recall_score: TP / (TP + FN). -/
def recall_score (yTrue yPred : List Nat) : ℚ :=
  (truePos yTrue yPred : ℚ) / ((truePos yTrue yPred + falseNeg yTrue yPred : Nat) : ℚ)

/-- f1_score: harmonic mean of precision and recall. -/
def f1_score (yTrue yPred : List Nat) : ℚ :=
  2 * precision_score yTrue yPred * recall_score yTrue yPred /
    (precision_score yTrue yPred + recall_score yTrue yPred)

/-- Recall restricted to a class c: among the pairs whose true label is c,
the fraction predicted as c. -/
def classRecall (yTrue yPred : List Nat) (c : Nat) : ℚ :=
  (confCount yTrue yPred (fun a b => a == c && b == c) : ℚ) /
    (confCount yTrue yPred (fun a _ => a == c) : ℚ)

/-- balanced_accuracy_score: the mean of the per-class recalls over the
classes occurring among the true labels. -/
def balanced_accuracy_score (yTrue yPred : List Nat) : ℚ :=
  let classes := yTrue.dedup
  (classes.map (classRecall yTrue yPred)).sum / (classes.length : ℚ)

/-- The Metric Record: the fixed-shape tuple of the five metrics the
notebook computes (spec section 3). -/
structure MetricRecord where
  accuracy : ℚ
  precision : ℚ
  recallMetric : ℚ
  f1 : ℚ
  balancedAccuracy : ℚ
deriving Repr, DecidableEq

/-- The Evaluator: one Metric Record from a (true labels, predictions)
pair, as in notebook section 3.c and the stability loop of section 3.e. -/
def evaluate (yTrue yPred : List Nat) : MetricRecord :=
  { accuracy := accuracy_score yTrue yPred
    precision := precision_score yTrue yPred
    recallMetric := recall_score yTrue yPred
    f1 := f1_score yTrue yPred
    balancedAccuracy := balanced_accuracy_score yTrue yPred }

/-- Membership in the closed unit interval. -/
def inUnit (x : ℚ) : Prop := 0 ≤ x ∧ x ≤ 1

/-! Helper bounds. -/

theorem natDiv_inUnit (a b : Nat) (h : a ≤ b) : inUnit ((a : ℚ) / (b : ℚ)) := by
  rcases Nat.eq_zero_or_pos b with hb | hb
  · subst hb
    simp [inUnit]
  · have hbq : (0 : ℚ) < b := by exact_mod_cast hb
    constructor
    · positivity
    · rw [div_le_one hbq]
      exact_mod_cast h

theorem confCount_le_length (yTrue yPred : List Nat) (p : Nat → Nat → Bool) :
    confCount yTrue yPred p ≤ yTrue.length := by
  have h1 : confCount yTrue yPred p ≤ (yTrue.zip yPred).length :=
    List.countP_le_length _
  have h2 : (yTrue.zip yPred).length ≤ yTrue.length := by
    rw [List.length_zip]
    omega
  omega

theorem confCount_mono (yTrue yPred : List Nat) (p q : Nat → Nat → Bool)
    (h : ∀ a b, p a b = true → q a b = true) :
    confCount yTrue yPred p ≤ confCount yTrue yPred q := by
  apply List.countP_mono_left
  intro ab _ hab
  exact h ab.1 ab.2 hab

theorem accuracy_inUnit (yTrue yPred : List Nat) :
    inUnit (accuracy_score yTrue yPred) :=
  natDiv_inUnit _ _ (confCount_le_length yTrue yPred _)

theorem precision_inUnit (yTrue yPred : List Nat) :
    inUnit (precision_score yTrue yPred) :=
  natDiv_inUnit _ _ (Nat.le_add_right _ _)

theorem recall_inUnit (yTrue yPred : List Nat) :
    inUnit (recall_score yTrue yPred) :=
  natDiv_inUnit _ _ (Nat.le_add_right _ _)

theorem harmonicMean_inUnit (p r : ℚ) (hp : inUnit p) (hr : inUnit r) :
    inUnit (2 * p * r / (p + r)) := by
  obtain ⟨hp0, hp1⟩ := hp
  obtain ⟨hr0, hr1⟩ := hr
  rcases eq_or_lt_of_le (add_nonneg hp0 hr0) with h | h
  · rw [← h]
    simp [inUnit]
  · constructor
    · positivity
    · rw [div_le_one h]
      nlinarith [mul_nonneg hp0 (sub_nonneg.mpr hr1), mul_nonneg hr0 (sub_nonneg.mpr hp1)]

theorem f1_inUnit (yTrue yPred : List Nat) : inUnit (f1_score yTrue yPred) :=
  harmonicMean_inUnit _ _ (precision_inUnit yTrue yPred) (recall_inUnit yTrue yPred)

theorem classRecall_inUnit (yTrue yPred : List Nat) (c : Nat) :
    inUnit (classRecall yTrue yPred c) := by
  apply natDiv_inUnit
  apply confCount_mono
  intro a b hab
  simp only [Bool.and_eq_true] at hab
  exact hab.1

theorem listAvg_inUnit (l : List ℚ) (h : ∀ x ∈ l, inUnit x) :
    inUnit (l.sum / (l.length : ℚ)) := by
  rcases eq_or_ne l [] with hl | hl
  · subst hl
    simp [inUnit]
  · have hpos : (0 : ℚ) < (l.length : ℚ) := by
      have : 0 < l.length := List.length_pos.mpr hl
      exact_mod_cast this
    constructor
    · apply div_nonneg _ (le_of_lt hpos)
      apply List.sum_nonneg
      intro x hx
      exact (h x hx).1
    · rw [div_le_one hpos]
      have := List.sum_le_card_nsmul l 1 (fun x hx => (h x hx).2)
      simpa using this

theorem balanced_accuracy_inUnit (yTrue yPred : List Nat) :
    inUnit (balanced_accuracy_score yTrue yPred) := by
  have h : ∀ x ∈ (yTrue.dedup.map (classRecall yTrue yPred)), inUnit x := by
    intro x hx
    obtain ⟨c, _, rfl⟩ := List.mem_map.mp hx
    exact classRecall_inUnit yTrue yPred c
  have := listAvg_inUnit _ h
  simpa [balanced_accuracy_score] using this

/-- C8: every Metric Record produced by the Evaluator has all five of its
metrics (accuracy, precision, recall, F1, balanced accuracy) in the
closed interval [0, 1], for every (true labels, predictions) pair. -/
theorem metric_record_inUnit (yTrue yPred : List Nat) :
    inUnit (evaluate yTrue yPred).accuracy ∧
    inUnit (evaluate yTrue yPred).precision ∧
    inUnit (evaluate yTrue yPred).recallMetric ∧
    inUnit (evaluate yTrue yPred).f1 ∧
    inUnit (evaluate yTrue yPred).balancedAccuracy :=
  ⟨accuracy_inUnit yTrue yPred, precision_inUnit yTrue yPred,
   recall_inUnit yTrue yPred, f1_inUnit yTrue yPred,
   balanced_accuracy_inUnit yTrue yPred⟩

/-! ### Data model: rows, the opaque Trained Model, prediction counts -/

/-- The predictor values of one Observation. -/
abbrev Features := List ℚ

/-- The Trained Model (spec sections 3 and 4.3): the opaque artifact
produced by RandomForestClassifier(n_estimators, random_state).fit on a
training subset.  Tree construction is out of scope for reimplementation
by the spec, so the model records its configuration and training data. -/
structure TrainedModel where
  nEstimators : Nat
  randomState : Nat
  trainX : List Features
  trainY : List Nat
deriving Repr, DecidableEq

/-- RandomForestClassifier(n_estimators, random_state).fit(X, y): builds
the opaque Trained Model from the configured hyperparameters and training
subset. -/
def RandomForestClassifier_fit (nEstimators randomState : Nat)
    (trainX : List Features) (trainY : List Nat) : TrainedModel :=
  { nEstimators := nEstimators, randomState := randomState,
    trainX := trainX, trainY := trainY }

/-- Modelled from the spec: the label the opaque classifier predicts: the
majority label of the training subset (0 for an empty training set).  The
spec keeps the ensemble vote out of scope; what matters for the claims is
that a predicted label is always one of the training labels. -/
def majorityLabel (labels : List Nat) : Nat :=
  labels.foldl
    (fun best c => if labels.count best < labels.count c then c else best)
    (labels.headD 0)

/-- clf.predict on one row. -/
def TrainedModel.predictOne (m : TrainedModel) (_x : Features) : Nat :=
  majorityLabel m.trainY

/-- clf.predict on the test rows: a predicted label per row. -/
def TrainedModel.predict (m : TrainedModel) (xs : List Features) : List Nat :=
  xs.map m.predictOne

/-- Modelled from the spec: clf.predict_proba class-1 probability of one
row: the empirical frequency of label 1 in the training subset. -/
def TrainedModel.predictProbaOne (m : TrainedModel) (_x : Features) : ℚ :=
  (m.trainY.count 1 : ℚ) / (m.trainY.length : ℚ)

/-- np.sum(y_pred == 1) of notebook section 3.b. -/
def drought_count (yPred : List Nat) : Nat := yPred.countP (fun b => b == 1)

/-- np.sum(y_pred == 0) of notebook section 3.b. -/
def non_drought_count (yPred : List Nat) : Nat := yPred.countP (fun b => b == 0)

/-! ### Claim C10: binary predictions partition the test set -/

theorem foldl_pick_mem (labels : List Nat) :
    ∀ (l : List Nat) (acc : Nat), acc ∈ labels → (∀ c ∈ l, c ∈ labels) →
      l.foldl (fun best c => if labels.count best < labels.count c then c else best)
        acc ∈ labels := by
  intro l
  induction l with
  | nil =>
    intro acc hacc _
    simpa using hacc
  | cons c l ih =>
    intro acc hacc hl
    rw [List.foldl_cons]
    by_cases h : labels.count acc < labels.count c
    · simp only [h, if_pos]
      exact ih c (hl c (List.mem_cons_self c l)) (fun d hd => hl d (List.mem_cons_of_mem c hd))
    · simp only [h, if_neg, ite_false]
      exact ih acc hacc (fun d hd => hl d (List.mem_cons_of_mem c hd))

theorem majorityLabel_mem (labels : List Nat) (h : labels ≠ []) :
    majorityLabel labels ∈ labels := by
  rw [majorityLabel]
  apply foldl_pick_mem labels labels
  · rcases labels with _ | ⟨x, xs⟩
    · exact absurd rfl h
    · exact List.mem_cons_self x xs
  · intro c hc
    exact hc

theorem majorityLabel_binary (labels : List Nat)
    (h : ∀ l ∈ labels, l = 0 ∨ l = 1) :
    majorityLabel labels = 0 ∨ majorityLabel labels = 1 := by
  rcases eq_or_ne labels [] with hl | hl
  · subst hl
    left
    rfl
  · exact h _ (majorityLabel_mem labels hl)

theorem binary_counts_partition (yPred : List Nat)
    (h : ∀ p ∈ yPred, p = 0 ∨ p = 1) :
    drought_count yPred + non_drought_count yPred = yPred.length := by
  induction yPred with
  | nil => rfl
  | cons p l ih =>
    have hp := h p (List.mem_cons_self p l)
    have hrec := ih (fun q hq => h q (List.mem_cons_of_mem p hq))
    rw [drought_count, non_drought_count] at hrec ⊢
    rcases hp with hp | hp <;> subst hp <;>
      simp [List.countP_cons] <;> omega

/-- C10: a model trained on binary labels in {0,1} predicts only labels
0 or 1, so the reported counts partition the test set:
drought_count + non_drought_count = len(y_pred). -/
theorem predictions_binary_partition (m : TrainedModel) (xs : List Features)
    (h : ∀ l ∈ m.trainY, l = 0 ∨ l = 1) :
    (∀ p ∈ m.predict xs, p = 0 ∨ p = 1) ∧
    drought_count (m.predict xs) + non_drought_count (m.predict xs)
      = (m.predict xs).length := by
  have hbin : ∀ p ∈ m.predict xs, p = 0 ∨ p = 1 := by
    intro p hp
    rw [TrainedModel.predict] at hp
    obtain ⟨x, _, rfl⟩ := List.mem_map.mp hp
    exact majorityLabel_binary m.trainY h
  exact ⟨hbin, binary_counts_partition _ hbin⟩

theorem predictions_binary_partition_witness :
    (∀ p ∈ (RandomForestClassifier_fit 500 42 [[1], [2], [3]] [0, 1, 1]).predict
        [[5], [6]], p = 0 ∨ p = 1) ∧
    drought_count ((RandomForestClassifier_fit 500 42 [[1], [2], [3]] [0, 1, 1]).predict
        [[5], [6]])
      + non_drought_count ((RandomForestClassifier_fit 500 42 [[1], [2], [3]] [0, 1, 1]).predict
        [[5], [6]])
      = ((RandomForestClassifier_fit 500 42 [[1], [2], [3]] [0, 1, 1]).predict
        [[5], [6]]).length :=
  predictions_binary_partition (RandomForestClassifier_fit 500 42 [[1], [2], [3]] [0, 1, 1])
    [[5], [6]] (by decide)

/-! ### Stability Runner (notebook section 3.e) -/

/-- Select the feature rows at the given indices (applying a split's index
list to the predictors dataframe X). -/
def selectRows (rows : List Features) (idx : List Nat) : List Features :=
  idx.map (fun i => rows.getD i [])

/-- Select the labels at the given indices (applying a split's index list
to the target array y). -/
def selectLabels (labels : List Nat) (idx : List Nat) : List Nat :=
  idx.map (fun i => labels.getD i 0)

/-- n_iterations = 30. -/
def n_iterations : Nat := 30

/-- seeds = np.arange(n_iterations). -/
def seeds : List Nat := List.range n_iterations

/-- The model fitted in one stability-loop iteration:
clf = RandomForestClassifier(n_estimators=100, random_state=seed) fitted
on the training part of train_test_split(X, y, test_size=0.2,
random_state=seed). -/
def stabilityIterClf (X : List Features) (y : List Nat) (seed : Nat) : TrainedModel :=
  let s := train_test_split y.length 1 5 seed
  RandomForestClassifier_fit 100 seed (selectRows X s.trainIdx) (selectLabels y s.trainIdx)

/-- The Metric Record of one stability-loop iteration: split with
random_state = seed, fit with random_state = seed, predict on the test
rows, evaluate against the held-out labels. -/
def stabilityIterRecord (X : List Features) (y : List Nat) (seed : Nat) : MetricRecord :=
  let s := train_test_split y.length 1 5 seed
  let clf := stabilityIterClf X y seed
  evaluate (selectLabels y s.testIdx) (clf.predict (selectRows X s.testIdx))

/-- The per-iteration Metric Records accumulated by the loop
(accuracy_scores[i], ..., one record per seed, in seed order). -/
def stabilityRecords (X : List Features) (y : List Nat) : List MetricRecord :=
  seeds.map (stabilityIterRecord X y)

/-- np.mean: the arithmetic average. -/
def npMean (l : List ℚ) : ℚ := l.sum / (l.length : ℚ)

/-- mean_accuracy = np.mean(accuracy_scores). -/
def mean_accuracy (X : List Features) (y : List Nat) : ℚ :=
  npMean ((stabilityRecords X y).map MetricRecord.accuracy)

/-- mean_precision = np.mean(precision_scores). -/
def mean_precision (X : List Features) (y : List Nat) : ℚ :=
  npMean ((stabilityRecords X y).map MetricRecord.precision)

/-- mean_recall = np.mean(recall_scores). -/
def mean_recall (X : List Features) (y : List Nat) : ℚ :=
  npMean ((stabilityRecords X y).map MetricRecord.recallMetric)

/-- mean_f1 = np.mean(f1_scores). -/
def mean_f1 (X : List Features) (y : List Nat) : ℚ :=
  npMean ((stabilityRecords X y).map MetricRecord.f1)

/-- mean_balanced_accuracy = np.mean(balanced_accuracy_scores). -/
def mean_balanced_accuracy (X : List Features) (y : List Nat) : ℚ :=
  npMean ((stabilityRecords X y).map MetricRecord.balancedAccuracy)

/-! ### Claim C3: 30 iterations, seed i everywhere in iteration i -/

theorem getD_map_range {α : Type} (f : Nat → α) (n i : Nat) (d : α) (h : i < n) :
    ((List.range n).map f).getD i d = f i := by
  rw [List.getD_eq_getElem _ _ (by simpa using h)]
  simp

theorem stabilityRecords_length (X : List Features) (y : List Nat) :
    (stabilityRecords X y).length = 30 := by
  rw [stabilityRecords, List.length_map, seeds, n_iterations, List.length_range]

/-- C3: the Stability Runner performs exactly 30 iterations over
seeds = 0..29, and the Metric Record stored at index i is the one obtained
by passing seed i both to train_test_split (random_state) and to
RandomForestClassifier (random_state): splitting with seed i, fitting a
100-tree model with seed i on that split's training subset, and evaluating
it on that split's test subset. -/
theorem stability_seed_schedule (X : List Features) (y : List Nat) (i : Nat)
    (hi : i < 30) :
    (stabilityRecords X y).length = 30 ∧
    seeds = List.range 30 ∧
    (stabilityRecords X y).getD i (evaluate [] []) =
      evaluate (selectLabels y (train_test_split y.length 1 5 i).testIdx)
        ((RandomForestClassifier_fit 100 i
            (selectRows X (train_test_split y.length 1 5 i).trainIdx)
            (selectLabels y (train_test_split y.length 1 5 i).trainIdx)).predict
          (selectRows X (train_test_split y.length 1 5 i).testIdx)) := by
  refine ⟨stabilityRecords_length X y, rfl, ?_⟩
  rw [stabilityRecords, seeds]
  rw [getD_map_range (stabilityIterRecord X y) n_iterations i (evaluate [] [])
    (by rw [n_iterations]; exact hi)]
  rfl

theorem stability_seed_schedule_witness :
    3 < 30 ∧
    ((stabilityRecords [[1], [2], [3], [4], [5]] [0, 1, 0, 1, 1]).length = 30 ∧
     seeds = List.range 30 ∧
     (stabilityRecords [[1], [2], [3], [4], [5]] [0, 1, 0, 1, 1]).getD 3 (evaluate [] []) =
       evaluate (selectLabels [0, 1, 0, 1, 1]
           (train_test_split (List.length [0, 1, 0, 1, 1]) 1 5 3).testIdx)
         ((RandomForestClassifier_fit 100 3
             (selectRows [[1], [2], [3], [4], [5]]
               (train_test_split (List.length [0, 1, 0, 1, 1]) 1 5 3).trainIdx)
             (selectLabels [0, 1, 0, 1, 1]
               (train_test_split (List.length [0, 1, 0, 1, 1]) 1 5 3).trainIdx)).predict
           (selectRows [[1], [2], [3], [4], [5]]
             (train_test_split (List.length [0, 1, 0, 1, 1]) 1 5 3).testIdx))) :=
  ⟨by decide,
   stability_seed_schedule [[1], [2], [3], [4], [5]] [0, 1, 0, 1, 1] 3 (by decide)⟩

/-! ### Claim C5: record count and arithmetic-mean aggregation -/

/-- C5: a Stability Runner run produces exactly n_iterations = 30 Metric
Records, and each reported mean metric equals the arithmetic average of
that metric's per-iteration values, within tolerance 1e-9 (here the
difference is exactly 0: np.mean is the arithmetic average). -/
theorem stability_means_are_averages (X : List Features) (y : List Nat) :
    (stabilityRecords X y).length = n_iterations ∧
    |mean_accuracy X y - ((stabilityRecords X y).map MetricRecord.accuracy).sum
        / (n_iterations : ℚ)| ≤ 1 / 1000000000 ∧
    |mean_precision X y - ((stabilityRecords X y).map MetricRecord.precision).sum
        / (n_iterations : ℚ)| ≤ 1 / 1000000000 ∧
    |mean_recall X y - ((stabilityRecords X y).map MetricRecord.recallMetric).sum
        / (n_iterations : ℚ)| ≤ 1 / 1000000000 ∧
    |mean_f1 X y - ((stabilityRecords X y).map MetricRecord.f1).sum
        / (n_iterations : ℚ)| ≤ 1 / 1000000000 ∧
    |mean_balanced_accuracy X y - ((stabilityRecords X y).map MetricRecord.balancedAccuracy).sum
        / (n_iterations : ℚ)| ≤ 1 / 1000000000 := by
  have hlen : (stabilityRecords X y).length = n_iterations := by
    rw [stabilityRecords, List.length_map, seeds, List.length_range]
  have hmap : ∀ g : MetricRecord → ℚ,
      ((stabilityRecords X y).map g).length = n_iterations := by
    intro g
    rw [List.length_map, hlen]
  refine ⟨hlen, ?_, ?_, ?_, ?_, ?_⟩ <;>
    · first
      | (rw [mean_accuracy, npMean, hmap MetricRecord.accuracy]; simp)
      | (rw [mean_precision, npMean, hmap MetricRecord.precision]; simp)
      | (rw [mean_recall, npMean, hmap MetricRecord.recallMetric]; simp)
      | (rw [mean_f1, npMean, hmap MetricRecord.f1]; simp)
      | (rw [mean_balanced_accuracy, npMean, hmap MetricRecord.balancedAccuracy]; simp)

/-! ### Claim C9: the stability loop rebinds the global clf -/

/-- The global name clf as bound by notebook section 3.a:
clf = RandomForestClassifier(n_estimators=500, random_state=42) fitted on
the training part of train_test_split(X, y, test_size=0.3,
random_state=42). -/
def clf_section3a (X : List Features) (y : List Nat) : TrainedModel :=
  let s := train_test_split y.length 3 10 42
  RandomForestClassifier_fit 500 42 (selectRows X s.trainIdx) (selectLabels y s.trainIdx)

/-- The global name clf after the stability loop of section 3.e has run:
the loop body rebinds clf on every iteration, so the final value is
whatever the last iteration assigned.  The fold mirrors the strictly
sequential loop, starting from the binding section 3.a left in place. -/
def clf_after_stability (X : List Features) (y : List Nat) : TrainedModel :=
  seeds.foldl (fun _clf seed => stabilityIterClf X y seed) (clf_section3a X y)

/-- The interactive widget's callback (notebook section 3.b cell): reads
the inputs and calls clf.predict_proba on whatever model the global name
clf currently refers to, returning the class-1 probability. -/
def predict_drought_probability (clf : TrainedModel) (inputValues : Features) : ℚ :=
  clf.predictProbaOne inputValues

theorem foldl_rebind_getLast {β : Type} (g : Nat → β) :
    ∀ (l : List Nat) (x : Nat) (init : β),
      (x :: l).foldl (fun _acc s => g s) init = g ((x :: l).getLast (by simp))
  | [], x, init => rfl
  | y :: l, x, init => by
    rw [List.foldl_cons]
    rw [foldl_rebind_getLast g l y (g x)]
    rfl

/-- C9: after the stability loop completes, the global clf is the
100-tree model trained with seed 29 in the final iteration, not the
500-tree seed-42 model of section 3.a, and a subsequent call of the
widget's predict_drought_probability uses that last-iteration model. -/
theorem clf_rebound_by_stability_loop (X : List Features) (y : List Nat) :
    clf_after_stability X y = stabilityIterClf X y 29 ∧
    (clf_after_stability X y).nEstimators = 100 ∧
    (clf_after_stability X y).randomState = 29 ∧
    clf_after_stability X y ≠ clf_section3a X y ∧
    (∀ input : Features,
      predict_drought_probability (clf_after_stability X y) input =
        (stabilityIterClf X y 29).predictProbaOne input) := by
  have hlast : clf_after_stability X y = stabilityIterClf X y 29 := by
    rw [clf_after_stability]
    have hseeds : seeds = 0 :: List.range' 1 29 := by
      rw [seeds, n_iterations]
      rfl
    rw [hseeds]
    rw [foldl_rebind_getLast (stabilityIterClf X y) (List.range' 1 29) 0 (clf_section3a X y)]
    rfl
  have hne : clf_after_stability X y ≠ clf_section3a X y := by
    intro h
    have h100 : (clf_after_stability X y).nEstimators = 100 := by
      rw [hlast]
      rfl
    have h500 : (clf_section3a X y).nEstimators = 500 := rfl
    rw [h] at h100
    rw [h500] at h100
    exact absurd h100 (by decide)
  refine ⟨hlast, by rw [hlast]; rfl, by rw [hlast]; rfl, hne, ?_⟩
  intro input
  rw [hlast]
  rfl

/-! ### Importance Reporter (notebook section 3.d) -/

/-- The importance value of predictor index i in the importance vector v
(0 outside the vector). -/
def impVal (v : List ℚ) (i : Nat) : ℚ := v.getD i 0

/-- The order np.argsort sorts indices by: ascending value, equal values
in original index order (np.argsort is modelled as a stable ascending
sort; on the notebook's 9-element array numpy's default sort is an
insertion sort, which is stable). -/
def argsortRel (v : List ℚ) (i j : Nat) : Prop :=
  impVal v i < impVal v j ∨ (impVal v i = impVal v j ∧ i ≤ j)

instance argsortRelDecidable (v : List ℚ) : DecidableRel (argsortRel v) := by
  intro i j
  rw [argsortRel]
  infer_instance

/-- np.argsort(v): the indices 0..n-1 stably sorted by ascending value. -/
def argsort (v : List ℚ) : List Nat :=
  List.insertionSort (argsortRel v) (List.range v.length)

/-- sorted_indices = np.argsort(variable_importance)[::-1]. -/
def sorted_indices (v : List ℚ) : List Nat := (argsort v).reverse

/-- ranking_df: the (predictor, importance) pairs in sorted_indices
order. -/
def ranking_df (names : List String) (v : List ℚ) : List (String × ℚ) :=
  (sorted_indices v).map (fun i => (names.getD i "", impVal v i))

/-- The tie-break the spec asserts for the ranked output: whenever an
earlier-listed predictor has the same importance as a later-listed one,
the earlier one has the smaller original column index (stable descending
sort, written from the spec's words for comparison with the code). -/
def tiesInOriginalOrder (v : List ℚ) (idxs : List Nat) : Prop :=
  idxs.Pairwise (fun i j => impVal v i = impVal v j → i < j)

instance tiesDecidable (v : List ℚ) (idxs : List Nat) :
    Decidable (tiesInOriginalOrder v idxs) := by
  rw [tiesInOriginalOrder]
  exact List.instDecidablePairwise idxs

theorem argsortRel_total (v : List ℚ) : ∀ i j, argsortRel v i j ∨ argsortRel v j i := by
  intro i j
  rw [argsortRel, argsortRel]
  rcases lt_trichotomy (impVal v i) (impVal v j) with h | h | h
  · exact Or.inl (Or.inl h)
  · rcases Nat.le_total i j with hij | hij
    · exact Or.inl (Or.inr ⟨h, hij⟩)
    · exact Or.inr (Or.inr ⟨h.symm, hij⟩)
  · exact Or.inr (Or.inl h)

theorem argsortRel_trans (v : List ℚ) : ∀ i j k,
    argsortRel v i j → argsortRel v j k → argsortRel v i k := by
  intro i j k hij hjk
  rcases hij with hij | ⟨hij, hij2⟩ <;> rcases hjk with hjk | ⟨hjk, hjk2⟩
  · exact Or.inl (hij.trans hjk)
  · exact Or.inl (hjk ▸ hij)
  · exact Or.inl (hij ▸ hjk)
  · exact Or.inr ⟨hij.trans hjk, hij2.trans hjk2⟩

theorem argsort_sorted (v : List ℚ) : (argsort v).Pairwise (argsortRel v) := by
  haveI : IsTotal Nat (argsortRel v) := ⟨argsortRel_total v⟩
  haveI : IsTrans Nat (argsortRel v) := ⟨argsortRel_trans v⟩
  exact List.sorted_insertionSort (argsortRel v) (List.range v.length)

theorem argsort_perm (v : List ℚ) : (argsort v).Perm (List.range v.length) :=
  List.perm_insertionSort (argsortRel v) (List.range v.length)

theorem argsort_nodup (v : List ℚ) : (argsort v).Nodup :=
  (argsort_perm v).nodup_iff.mpr (List.nodup_range v.length)

/-- C2 (amended): sorted_indices lists every predictor index exactly once,
in non-increasing order of importance; predictors of equal importance
appear in REVERSE original column order (np.argsort sorts ascending and
stably, and the notebook reverses it, so ties come out backwards). -/
theorem ranking_sorted_desc_ties_reversed (v : List ℚ) :
    (sorted_indices v).Perm (List.range v.length) ∧
    (sorted_indices v).Pairwise (fun i j => impVal v j ≤ impVal v i) ∧
    (sorted_indices v).Pairwise
      (fun i j => impVal v j < impVal v i ∨ (impVal v i = impVal v j ∧ j < i)) := by
  have hperm : (sorted_indices v).Perm (List.range v.length) :=
    ((argsort v).reverse_perm).trans (argsort_perm v)
  have hne : (argsort v).Pairwise (fun i j => i ≠ j) := argsort_nodup v
  have hs := argsort_sorted v
  have hstrict : (argsort v).Pairwise
      (fun i j => impVal v i < impVal v j ∨ (impVal v i = impVal v j ∧ i < j)) := by
    have hand := hs.and hne
    apply hand.imp
    intro i j hij
    obtain ⟨hr, hne2⟩ := hij
    rcases hr with hr | ⟨heq, hle⟩
    · exact Or.inl hr
    · exact Or.inr ⟨heq, lt_of_le_of_ne hle hne2⟩
  have hrev : (sorted_indices v).Pairwise
      (fun i j => impVal v j < impVal v i ∨ (impVal v j = impVal v i ∧ j < i)) := by
    rw [sorted_indices, List.pairwise_reverse]
    exact hstrict
  have hrev2 : (sorted_indices v).Pairwise
      (fun i j => impVal v j < impVal v i ∨ (impVal v i = impVal v j ∧ j < i)) := by
    apply hrev.imp
    intro i j hij
    rcases hij with h | ⟨heq, hlt⟩
    · exact Or.inl h
    · exact Or.inr ⟨heq.symm, hlt⟩
  refine ⟨hperm, ?_, hrev2⟩
  apply hrev2.imp
  intro i j hij
  rcases hij with h | ⟨heq, _⟩
  · exact le_of_lt h
  · exact le_of_eq heq.symm

/-- C2 counterexample: with two predictors of equal importance
(v = [1, 1]), the code produces sorted_indices = [1, 0]: the tied
predictors appear in REVERSE original column order, refuting the claim
that ties appear in original column order. -/
theorem ranking_ties_counterexample :
    sorted_indices [(1 : ℚ), 1] = [1, 0] ∧
    ¬ tiesInOriginalOrder [(1 : ℚ), 1] (sorted_indices [(1 : ℚ), 1]) := by
  constructor
  · rfl
  · intro h
    rw [tiesInOriginalOrder] at h
    have h10 : sorted_indices [(1 : ℚ), 1] = [1, 0] := rfl
    rw [h10] at h
    have := List.rel_of_pairwise_cons h (List.mem_singleton.mpr rfl)
    have h1 : impVal [(1 : ℚ), 1] 1 = impVal [(1 : ℚ), 1] 0 := rfl
    have := this h1
    omega

/-! ### Data Loader (notebook cell: pd.read_csv + dropna) -/

/-- One raw CSV cell: a numeric value or missing (NaN). -/
abbrev RawCell := Option ℚ

/-- One raw CSV row. -/
abbrev RawRow := List RawCell

/-- data.dropna(axis=0): keep exactly the rows with no missing value, in
order. -/
def dropna (rows : List RawRow) : List RawRow :=
  rows.filter (fun r => r.all (fun c => c.isSome))

/-- The one distinguished error kind of the pipeline (spec section 7). -/
inductive PipelineError where
  | fileAccessError
deriving Repr, DecidableEq

/-- Modelled from the spec: the raw contents pd.read_csv would parse: a
header naming the columns and the data rows. -/
structure RawCsv where
  header : List String
  rows : List RawRow
deriving Repr, DecidableEq

/-- A parseable CSV: every data row has one cell per header column. -/
def wellFormed (f : RawCsv) : Bool :=
  f.rows.all (fun r => r.length = f.header.length)

/-- Modelled from the spec: pd.read_csv — the input file is either absent
(none) or present; an absent or malformed file fails with the
FileAccessError and nothing is recovered (spec sections 4.1 and 7). -/
def read_csv (file : Option RawCsv) : Except PipelineError RawCsv :=
  match file with
  | none => .error .fileAccessError
  | some f => if wellFormed f then .ok f else .error .fileAccessError

/-- The column position of a named column. -/
def colIdx (header : List String) (name : String) : Nat :=
  header.findIdx (fun h => h == name)

/-- predictors = ['P', 'PET', 'ET', 'SM', 'SM_prev', 'DS', 'NDVI',
'enso', 'month']. -/
def predictorNames : List String :=
  ["P", "PET", "ET", "SM", "SM_prev", "DS", "NDVI", "enso", "month"]

/-- target = 'drought'. -/
def targetName : String := "drought"

/-- X = data[predictors]: the predictor columns of each row, in predictor
order (missing cells read as 0; after dropna none remain). -/
def extractX (header : List String) (rows : List RawRow) : List Features :=
  rows.map (fun r => predictorNames.map (fun nm => (r.getD (colIdx header nm) none).getD 0))

/-- y = data[target]: the binary drought label of each row. -/
def extractY (header : List String) (rows : List RawRow) : List Nat :=
  rows.map (fun r => if (r.getD (colIdx header targetName) none).getD 0 = 1 then 1 else 0)

/-- The pipeline from the Data Loader onwards: read the file, drop rows
with missing values, separate predictors from the target, and run the
Stability Runner.  The notebook has no exception handling, so a loader
failure is fatal: no later stage runs and no records are produced. -/
def runPipeline (file : Option RawCsv) : Except PipelineError (List MetricRecord) := do
  let f ← read_csv file
  let clean := dropna f.rows
  let X := extractX f.header clean
  let y := extractY f.header clean
  pure (stabilityRecords X y)

/-! ### Claim C6: dropna keeps exactly the complete rows -/

theorem count_filter_of_pos {α : Type} [BEq α] [LawfulBEq α] (p : α → Bool) (l : List α) (a : α)
    (h : p a = true) : (l.filter p).count a = l.count a := by
  induction l with
  | nil => rfl
  | cons b l ih =>
    by_cases hb : p b = true
    · rw [List.filter_cons, if_pos (by simpa using hb), List.count_cons, List.count_cons, ih]
    · have hne : b ≠ a := by
        intro he
        rw [he, h] at hb
        exact hb rfl
      rw [List.filter_cons, if_neg (by simpa using hb), List.count_cons, ih]
      simp [hne, Ne.symm hne]

/-- C6: after the dropna stage, every row of the Dataset used for
modeling has no missing values; every row without missing values is kept
with its multiplicity (none is removed); and every row that was dropped
did contain a missing value. -/
theorem dropna_drops_exactly_missing (rows : List RawRow) :
    (∀ r ∈ dropna rows, ∀ c ∈ r, c.isSome = true) ∧
    (∀ r : RawRow, (∀ c ∈ r, c.isSome = true) → (dropna rows).count r = rows.count r) ∧
    (∀ r ∈ rows, r ∉ dropna rows → ∃ c ∈ r, c = none) := by
  refine ⟨?_, ?_, ?_⟩
  · intro r hr c hc
    rw [dropna] at hr
    have := (List.mem_filter.mp hr).2
    exact List.all_eq_true.mp this c hc
  · intro r hr
    apply count_filter_of_pos
    exact List.all_eq_true.mpr hr
  · intro r hr hnot
    rw [dropna] at hnot
    by_cases hall : r.all (fun c => c.isSome) = true
    · exact absurd (List.mem_filter.mpr ⟨hr, hall⟩) hnot
    · rw [List.all_eq_true] at hall
      push_neg at hall
      obtain ⟨c, hc, hcs⟩ := hall
      refine ⟨c, hc, ?_⟩
      cases c with
      | none => rfl
      | some a => simp at hcs

theorem dropna_witness :
    (dropna [[some (1 : ℚ), none], [some 2, some 3]]).count [some (2 : ℚ), some 3]
      = ([[some (1 : ℚ), none], [some 2, some 3]] : List RawRow).count [some (2 : ℚ), some 3] :=
  (dropna_drops_exactly_missing [[some (1 : ℚ), none], [some 2, some 3]]).2.1
    [some (2 : ℚ), some 3] (by decide)

/-! ### Claim C7: absent or malformed input is fatal -/

/-- C7: if the input file is absent or malformed, the pipeline fails with
the FileAccessError, the failure is fatal (the run produces an error, not
records: no later stage runs), and the FileAccessError is the only
distinguished error kind in the pipeline. -/
theorem loader_failure_fatal (file : Option RawCsv)
    (h : file = none ∨ ∃ f, file = some f ∧ wellFormed f = false) :
    runPipeline file = .error .fileAccessError ∧
    (∀ e : PipelineError, e = .fileAccessError) := by
  constructor
  · rcases h with h | ⟨f, rfl, hf⟩
    · subst h
      rfl
    · rw [runPipeline, read_csv]
      rw [if_neg (by simp [hf])]
      rfl
  · intro e
    cases e
    rfl

theorem loader_failure_fatal_witness :
    runPipeline (some { header := ["a", "b"], rows := [[some 1]] }) =
      .error .fileAccessError ∧
    (∀ e : PipelineError, e = .fileAccessError) :=
  loader_failure_fatal (some { header := ["a", "b"], rows := [[some 1]] })
    (Or.inr ⟨{ header := ["a", "b"], rows := [[some 1]] }, rfl, by decide⟩)
